import Mathlib

/-
Verification of the time-tracking kernel in src/time.py.

Times are modelled as exact rational numbers of milliseconds since an
arbitrary naive-local epoch; a calendar day is identified with the integer
obtained by flooring the timestamp by 86400000 ms.  Calendar dates for the
navigation layer are modelled as explicit year/month/day triples with the
Gregorian leap rule.  Python float arithmetic is modelled by exact rational
arithmetic; Python round (banker rounding) and int (truncation toward zero)
are modelled exactly.
-/

namespace TimeApp

/-- Model of Python round on an exact rational: round half to even. -/
def pyRound (q : ℚ) : ℤ :=
  let f := ⌊q⌋
  let r := q - f
  if r < 1/2 then f
  else if 1/2 < r then f + 1
  else if f % 2 = 0 then f else f + 1

/-- Model of Python int(): truncation toward zero. -/
def pyInt (q : ℚ) : ℤ := if 0 ≤ q then ⌊q⌋ else ⌈q⌉

/-- Model of the Python f-string format 02d: decimal, zero-padded to width 2. -/
def fmt02 (n : ℤ) : String :=
  if 0 ≤ n ∧ n < 10 then "0" ++ toString n else toString n

/-- hours_to_hhmm from src/time.py lines 12-15:
h = int(hours); m = int(round((hours - h) * 60)); return formatted h:m. -/
def hours_to_hhmm (hours : ℚ) : String :=
  let h := pyInt hours
  let m := pyRound ((hours - (h : ℚ)) * 60)
  fmt02 h ++ ":" ++ fmt02 m

/-- One input row of build_split after the loader has parsed start and
coerced the duration to a number (rows failing either are dropped upstream
of the per-record loop). -/
structure ActivityRecord where
  activityCategoryName : String
  activityName : String
  note : String
  start : ℚ
  duration_ms : ℚ
deriving DecidableEq

/-- One emitted row of the split record list.  The field stop models the
column named end in the source, which is a reserved word here. -/
structure DaySegment where
  start : ℚ
  stop : ℚ
  activityCategoryName : String
  activityName : String
  note : String
  duration_hours : ℚ
deriving DecidableEq

/-- The calendar-day number of a naive timestamp in milliseconds: the model
of the .date() accessor. -/
def dateOf (t : ℚ) : ℤ := ⌊t / 86400000⌋

/-- The date column added to the split dataframe: the day of the segment
start (src/time.py line 74). -/
def segDate (s : DaySegment) : ℤ := dateOf s.start

/-- The while loop of build_split (src/time.py lines 48-70), with an explicit
fuel bound on the number of midnight crossings.  While the current day is
strictly before the end day, a segment up to the next midnight is emitted and
the remaining milliseconds are reduced; afterwards one final segment up to
the end timestamp is emitted unconditionally. -/
def splitGo (r : ActivityRecord) : ℕ → ℚ → ℚ → ℚ → List DaySegment
  | 0, current, endT, remaining =>
      [⟨current, endT, r.activityCategoryName, r.activityName, r.note,
        remaining / 3600000⟩]
  | fuel + 1, current, endT, remaining =>
      if dateOf current < dateOf endT then
        ⟨current, ((dateOf current : ℚ) + 1) * 86400000,
         r.activityCategoryName, r.activityName, r.note,
         (((dateOf current : ℚ) + 1) * 86400000 - current) / 3600000⟩
          :: splitGo r fuel (((dateOf current : ℚ) + 1) * 86400000) endT
               (remaining - (((dateOf current : ℚ) + 1) * 86400000 - current))
      else
        [⟨current, endT, r.activityCategoryName, r.activityName, r.note,
          remaining / 3600000⟩]

/-- The body of the per-record loop of build_split (src/time.py lines 44-70):
end = start + duration, then the midnight-splitting loop.  The fuel equals
the exact number of loop iterations, the count of day boundaries between
start and end. -/
def build_split_record (r : ActivityRecord) : List DaySegment :=
  splitGo r (dateOf (r.start + r.duration_ms) - dateOf r.start).toNat
    r.start (r.start + r.duration_ms) r.duration_ms

/-- build_split over a whole record list: concatenation of the per-record
segments in order. -/
def build_split (rs : List ActivityRecord) : List DaySegment :=
  rs.flatMap build_split_record

theorem dateOf_day_mul (k : ℤ) : dateOf ((k : ℚ) * 86400000) = k := by
  unfold dateOf
  have h : ((k : ℚ) * 86400000) / 86400000 = (k : ℚ) := by field_simp
  rw [h, Int.floor_intCast]

theorem dateOf_next_day (c : ℚ) :
    dateOf (((dateOf c : ℚ) + 1) * 86400000) = dateOf c + 1 := by
  have h : ((dateOf c : ℚ) + 1) = ((dateOf c + 1 : ℤ) : ℚ) := by push_cast; ring
  rw [h, dateOf_day_mul]

theorem dateOf_mono {s t : ℚ} (h : s ≤ t) : dateOf s ≤ dateOf t := by
  unfold dateOf
  apply Int.floor_mono
  gcongr

theorem day_mul_dateOf_le (t : ℚ) : (dateOf t : ℚ) * 86400000 ≤ t := by
  unfold dateOf
  have h := Int.floor_le (t / 86400000)
  rw [le_div_iff (by norm_num : (0:ℚ) < 86400000)] at h
  exact h

theorem lt_next_day_mul (t : ℚ) : t < ((dateOf t : ℚ) + 1) * 86400000 := by
  unfold dateOf
  have h := Int.lt_floor_add_one (t / 86400000)
  rw [div_lt_iff (by norm_num : (0:ℚ) < 86400000)] at h
  calc t < (↑⌊t / 86400000⌋ + 1) * 86400000 := h
    _ = _ := by ring

theorem dateOf_le_iff {s : ℚ} {d : ℤ} :
    dateOf s ≤ d ↔ s < ((d : ℚ) + 1) * 86400000 := by
  unfold dateOf
  rw [show (⌊s / 86400000⌋ ≤ d) ↔ (⌊s / 86400000⌋ < d + 1) from by omega,
      Int.floor_lt, div_lt_iff (by norm_num : (0:ℚ) < 86400000)]
  push_cast
  rfl

theorem le_dateOf_iff {e : ℚ} {d : ℤ} :
    d ≤ dateOf e ↔ (d : ℚ) * 86400000 ≤ e := by
  unfold dateOf
  rw [Int.le_floor, le_div_iff (by norm_num : (0:ℚ) < 86400000)]

theorem splitGo_sum (r : ActivityRecord) :
    ∀ (fuel : ℕ) (c e rem : ℚ),
      ((splitGo r fuel c e rem).map DaySegment.duration_hours).sum
        = rem / 3600000 := by
  intro fuel
  induction fuel with
  | zero => intro c e rem; simp [splitGo]
  | succ n ih =>
    intro c e rem
    by_cases h : dateOf c < dateOf e
    · simp only [splitGo, if_pos h, List.map_cons, List.sum_cons, ih]
      ring
    · simp [splitGo, if_neg h]

theorem splitGo_dates (r : ActivityRecord) :
    ∀ (fuel : ℕ) (c e rem : ℚ),
      fuel = (dateOf e - dateOf c).toNat → dateOf c ≤ dateOf e →
      ∀ d : ℤ, d ∈ (splitGo r fuel c e rem).map segDate ↔
        (dateOf c ≤ d ∧ d ≤ dateOf e) := by
  intro fuel
  induction fuel with
  | zero =>
    intro c e rem hf hle d
    have heq : dateOf e = dateOf c := by omega
    simp [splitGo, segDate, heq]
    omega
  | succ n ih =>
    intro c e rem hf hle d
    have hlt : dateOf c < dateOf e := by omega
    have hnext := dateOf_next_day c
    have ihd := ih (((dateOf c : ℚ) + 1) * 86400000) e
      (rem - (((dateOf c : ℚ) + 1) * 86400000 - c)) (by omega) (by omega) d
    simp only [splitGo, if_pos hlt, List.map_cons, List.mem_cons, ihd, segDate,
      hnext]
    omega

theorem splitGo_start_head (r : ActivityRecord) :
    ∀ (fuel : ℕ) (c e rem : ℚ),
      (splitGo r fuel c e rem).head?.map DaySegment.start = some c := by
  intro fuel c e rem
  cases fuel with
  | zero => rfl
  | succ n =>
    by_cases h : dateOf c < dateOf e <;> simp [splitGo, h]

theorem splitGo_chain (r : ActivityRecord) :
    ∀ (fuel : ℕ) (c e rem : ℚ),
      List.Chain' (fun a b => a.stop = b.start) (splitGo r fuel c e rem) := by
  intro fuel
  induction fuel with
  | zero => intro c e rem; simp [splitGo]
  | succ n ih =>
    intro c e rem
    by_cases h : dateOf c < dateOf e
    · simp only [splitGo, if_pos h]
      refine List.chain'_cons'.mpr ⟨?_, ih _ _ _⟩
      intro b hb
      have hh := splitGo_start_head r n (((dateOf c : ℚ) + 1) * 86400000) e
        (rem - (((dateOf c : ℚ) + 1) * 86400000 - c))
      rw [Option.mem_def] at hb
      rw [hb] at hh
      simp at hh
      simp [hh]
    · simp [splitGo, if_neg h]

theorem splitGo_segments (r : ActivityRecord) :
    ∀ (fuel : ℕ) (c e rem : ℚ),
      fuel = (dateOf e - dateOf c).toNat → c ≤ e →
      ∀ seg ∈ splitGo r fuel c e rem,
        ((segDate seg : ℚ) * 86400000 ≤ seg.start ∧
          seg.stop ≤ ((segDate seg : ℚ) + 1) * 86400000)
        ∧ seg.start ≤ seg.stop := by
  intro fuel
  induction fuel with
  | zero =>
    intro c e rem hf hce seg hseg
    have hdd : dateOf c = dateOf e := le_antisymm (dateOf_mono hce) (by omega)
    simp only [splitGo, List.mem_singleton] at hseg
    subst hseg
    refine ⟨⟨?_, ?_⟩, hce⟩
    · exact day_mul_dateOf_le c
    · have h2 := lt_next_day_mul e
      simp only [segDate]
      rw [show dateOf (⟨c, e, r.activityCategoryName, r.activityName, r.note,
            rem / 3600000⟩ : DaySegment).start = dateOf e from by
          simp only []; rw [hdd]]
      exact le_of_lt h2
  | succ n ih =>
    intro c e rem hf hce seg hseg
    have hlt : dateOf c < dateOf e := by omega
    have hnext := dateOf_next_day c
    have hcast : ((dateOf c : ℚ) + 1) ≤ (dateOf e : ℚ) := by
      exact_mod_cast hlt
    have hnde : (((dateOf c : ℚ) + 1) * 86400000) ≤ e := by
      calc ((dateOf c : ℚ) + 1) * 86400000
          ≤ (dateOf e : ℚ) * 86400000 := by
            exact mul_le_mul_of_nonneg_right hcast (by norm_num)
        _ ≤ e := day_mul_dateOf_le e
    simp only [splitGo, if_pos hlt, List.mem_cons] at hseg
    rcases hseg with hhead | htail
    · subst hhead
      refine ⟨⟨?_, ?_⟩, ?_⟩
      · exact day_mul_dateOf_le c
      · simp only [segDate]
        exact le_refl _
      · exact le_of_lt (lt_next_day_mul c)
    · exact ih (((dateOf c : ℚ) + 1) * 86400000) e
        (rem - (((dateOf c : ℚ) + 1) * 86400000 - c)) (by omega) hnde seg htail

/-- Day d (as a day number) is overlapped by the half-open interval from s
to e: their intersection is nonempty. -/
def overlapsHalfOpen (d : ℤ) (s e : ℚ) : Prop :=
  max s ((d : ℚ) * 86400000) < min e (((d : ℚ) + 1) * 86400000)

instance (d : ℤ) (s e : ℚ) : Decidable (overlapsHalfOpen d s e) := by
  unfold overlapsHalfOpen
  infer_instance

/-- Day d is overlapped by the closed interval from s to e: their
intersection is nonempty. -/
def overlapsClosed (d : ℤ) (s e : ℚ) : Prop :=
  (d : ℚ) * 86400000 ≤ e ∧ s < ((d : ℚ) + 1) * 86400000

instance (d : ℤ) (s e : ℚ) : Decidable (overlapsClosed d s e) := by
  unfold overlapsClosed
  infer_instance

/-- C1: for every ActivityRecord with a parseable start and numeric
nonnegative duration, the sum of duration_hours over all segments emitted by
build_split for that record equals duration_ms / 3600000 within 1e-9 (the
rational model makes the sum exactly equal, so the tolerance is met). -/
theorem C1_duration_sum (r : ActivityRecord) (h : 0 ≤ r.duration_ms) :
    |((build_split_record r).map DaySegment.duration_hours).sum
        - r.duration_ms / 3600000| ≤ 1 / 1000000000 := by
  rw [build_split_record, splitGo_sum]
  norm_num

/-- Witness for C1 at a one-hour record starting at the epoch. -/
theorem C1_duration_sum_witness :
    (0 : ℚ) ≤ 3600000 ∧
    |((build_split_record ⟨"A", "a", "", 0, 3600000⟩).map
        DaySegment.duration_hours).sum - 3600000 / 3600000| ≤ 1 / 1000000000 :=
  ⟨by norm_num, C1_duration_sum ⟨"A", "a", "", 0, 3600000⟩ (by norm_num)⟩

/-- The two segments emitted for a record starting at 23:00 of day 0 and
lasting exactly one hour: the second is a zero-duration segment dated day 1. -/
theorem split_midnight_end_eval :
    build_split_record ⟨"A", "a", "", 82800000, 3600000⟩ =
      [⟨82800000, 86400000, "A", "a", "", 1⟩,
       ⟨86400000, 86400000, "A", "a", "", 0⟩] := by
  norm_num [build_split_record, splitGo, dateOf]

/-- C2 counterexample: for the record starting at 23:00 of day 0 with a one
hour duration, the half-open interval from start to start plus duration ends
exactly at midnight and overlaps only day 0, yet the splitter emits a
zero-duration segment dated day 1, so the claimed set equality fails. -/
theorem C2_counterexample :
    ¬ (∀ d : ℤ,
        d ∈ (build_split_record ⟨"A", "a", "", 82800000, 3600000⟩).map segDate
          ↔ overlapsHalfOpen d 82800000 (82800000 + 3600000)) := by
  intro h
  have h1 := (h 1).mp (by rw [split_midnight_end_eval]; norm_num [segDate, dateOf])
  rw [overlapsHalfOpen] at h1
  norm_num at h1

/-- C2 amended: for every record with nonnegative duration, the set of
distinct segment dates equals the set of calendar days overlapped by the
CLOSED interval from start to start plus duration (equivalently, all days
from the day of start to the day of end inclusive); the half-open variant
fails exactly when the end falls on a midnight, where a zero-duration
segment dated the following day is also emitted. -/
theorem C2_closed_interval_days (r : ActivityRecord) (h : 0 ≤ r.duration_ms)
    (d : ℤ) :
    d ∈ (build_split_record r).map segDate ↔
      overlapsClosed d r.start (r.start + r.duration_ms) := by
  have hle : dateOf r.start ≤ dateOf (r.start + r.duration_ms) :=
    dateOf_mono (by linarith)
  rw [build_split_record, splitGo_dates r _ _ _ _ rfl hle d]
  unfold overlapsClosed
  rw [dateOf_le_iff, le_dateOf_iff]
  exact and_comm

/-- Witness for C2 at the day-crossing record and day 1. -/
theorem C2_closed_interval_days_witness :
    (0 : ℚ) ≤ 3600000 ∧
    ((1 : ℤ) ∈ (build_split_record ⟨"A", "a", "", 82800000, 3600000⟩).map segDate
      ↔ overlapsClosed 1 82800000 (82800000 + 3600000)) :=
  ⟨by norm_num,
   C2_closed_interval_days ⟨"A", "a", "", 82800000, 3600000⟩ (by norm_num) 1⟩

/-- C3 counterexample: a record with duration_ms equal to 0 is not dropped:
build_split emits exactly one (zero-duration) segment for it, not zero
segments. -/
theorem C3_counterexample :
    build_split_record ⟨"A", "a", "", 0, 0⟩ ≠ [] ∧
    (build_split_record ⟨"A", "a", "", 0, 0⟩).length = 1 := by
  have hev : build_split_record ⟨"A", "a", "", 0, 0⟩ =
      [⟨0, 0, "A", "a", "", 0⟩] := by
    norm_num [build_split_record, splitGo, dateOf]
  rw [hev]
  refine ⟨by simp, rfl⟩

/-- C3 amended: for every record whose duration_ms is zero or negative, the
splitter emits exactly one segment from start to start plus duration with
duration_hours equal to duration_ms / 3600000 (zero-duration when the
duration is 0, negative when it is negative); only rows whose duration fails
numeric coercion (NaN) are dropped before the loop and yield zero segments. -/
theorem C3_nonpositive_single_segment (r : ActivityRecord)
    (h : r.duration_ms ≤ 0) :
    build_split_record r =
      [⟨r.start, r.start + r.duration_ms, r.activityCategoryName,
        r.activityName, r.note, r.duration_ms / 3600000⟩] := by
  have h1 : dateOf (r.start + r.duration_ms) ≤ dateOf r.start :=
    dateOf_mono (by linarith)
  have h2 : (dateOf (r.start + r.duration_ms) - dateOf r.start).toNat = 0 := by
    omega
  rw [build_split_record, h2]
  rfl

/-- Witness for C3 at a zero-duration record. -/
theorem C3_nonpositive_single_segment_witness :
    (0 : ℚ) ≤ 0 ∧
    build_split_record ⟨"A", "a", "", 0, 0⟩ = [⟨0, 0 + 0, "A", "a", "", 0 / 3600000⟩] :=
  ⟨le_refl 0, C3_nonpositive_single_segment ⟨"A", "a", "", 0, 0⟩ (le_refl 0)⟩

/-- C4: for every record with positive duration, every emitted segment lies
within the single calendar day of its own start (its start is at or after
that day midnight and its stop at or before the next midnight), segments are
chronological (start at or before stop), and consecutive segments are
contiguous: each segment stop equals the next segment start. -/
theorem C4_day_aligned_contiguous (r : ActivityRecord)
    (h : 0 < r.duration_ms) :
    (∀ seg ∈ build_split_record r,
        ((segDate seg : ℚ) * 86400000 ≤ seg.start ∧
          seg.stop ≤ ((segDate seg : ℚ) + 1) * 86400000)
        ∧ seg.start ≤ seg.stop)
    ∧ List.Chain' (fun a b => a.stop = b.start) (build_split_record r) := by
  constructor
  · exact splitGo_segments r _ _ _ _ rfl (by linarith)
  · exact splitGo_chain r _ _ _ _

/-- Witness for C4 at the day-crossing record. -/
theorem C4_day_aligned_contiguous_witness :
    (0 : ℚ) < 3600000 ∧
    ((∀ seg ∈ build_split_record ⟨"A", "a", "", 82800000, 3600000⟩,
        ((segDate seg : ℚ) * 86400000 ≤ seg.start ∧
          seg.stop ≤ ((segDate seg : ℚ) + 1) * 86400000)
        ∧ seg.start ≤ seg.stop)
    ∧ List.Chain' (fun a b => a.stop = b.start)
        (build_split_record ⟨"A", "a", "", 82800000, 3600000⟩)) :=
  ⟨by norm_num,
   C4_day_aligned_contiguous ⟨"A", "a", "", 82800000, 3600000⟩ (by norm_num)⟩

/-- C10: there is a nonnegative hours value whose formatted output has the
minute field 60: one hour plus 59.5 minutes, that is 239/120 hours, formats
as 01:60 because the fractional 59.5 minutes round (half to even) to 60. -/
theorem C10_minute_field_sixty :
    ∃ hours : ℚ, 0 ≤ hours ∧ hours_to_hhmm hours = "01:60" := by
  refine ⟨239/120, by norm_num, ?_⟩
  norm_num [hours_to_hhmm, pyInt, pyRound, fmt02]
  rfl

/-- A calendar date as stored in datetime.date: year, month (1-12) and day. -/
structure Date where
  year : ℤ
  month : ℕ
  day : ℕ
deriving DecidableEq

/-- The Gregorian leap-year rule used by datetime. -/
def isLeap (y : ℤ) : Prop := (y % 4 = 0 ∧ y % 100 ≠ 0) ∨ y % 400 = 0

instance (y : ℤ) : Decidable (isLeap y) := by
  unfold isLeap
  infer_instance

/-- Length of a Gregorian month. -/
def daysInMonth (y : ℤ) (m : ℕ) : ℕ :=
  if m = 2 then (if isLeap y then 29 else 28)
  else if m = 4 ∨ m = 6 ∨ m = 9 ∨ m = 11 then 30
  else 31

/-- The validity check performed by the datetime.date constructor (the year
range bound is not modelled; years are unbounded integers). -/
def validDate (y : ℤ) (m d : ℕ) : Prop :=
  1 ≤ m ∧ m ≤ 12 ∧ 1 ≤ d ∧ d ≤ daysInMonth y m

instance (y : ℤ) (m d : ℕ) : Decidable (validDate y m d) := by
  unfold validDate
  infer_instance

/-- The datetime.date constructor: some date when valid, none modelling the
ValueError raised on an invalid combination. -/
def mkDate (y : ℤ) (m d : ℕ) : Option Date :=
  if validDate y m d then some ⟨y, m, d⟩ else none

/-- The next calendar day: the effect of adding one day to a valid date. -/
def succDate (x : Date) : Date :=
  if x.day < daysInMonth x.year x.month then ⟨x.year, x.month, x.day + 1⟩
  else if x.month < 12 then ⟨x.year, x.month + 1, 1⟩
  else ⟨x.year + 1, 1, 1⟩

/-- The previous calendar day: the effect of subtracting one day from a
valid date. -/
def predDate (x : Date) : Date :=
  if 1 < x.day then ⟨x.year, x.month, x.day - 1⟩
  else if 1 < x.month then ⟨x.year, x.month - 1, daysInMonth x.year (x.month - 1)⟩
  else ⟨x.year - 1, 12, 31⟩

/-- The Month branch of get_period_dates (src/time.py lines 500-504):
start = current_date.replace(day=1); next_month = (start + 32 days) with day
replaced by 1; end = next_month minus one day.  Adding 32 days is modelled
as 32 iterations of the one-day successor. -/
def get_period_dates_month (c : Date) : Date × Date :=
  (⟨c.year, c.month, 1⟩,
   predDate ⟨(succDate^[32] ⟨c.year, c.month, 1⟩).year,
             (succDate^[32] ⟨c.year, c.month, 1⟩).month, 1⟩)

/-- The Month branch of shift_period_left (src/time.py lines 167-170): the
session-state read becomes the argument and the write becomes the result.
month = cur.month - 1 or 12 keeps the decremented month unless it is 0. -/
def shift_period_left_month (c : Date) : Date :=
  let month := if c.month - 1 = 0 then 12 else c.month - 1
  let year := c.year - (if month = 12 then 1 else 0)
  ⟨year, month, min c.day 28⟩

/-- The Month branch of shift_period_right (src/time.py lines 183-187). -/
def shift_period_right_month (c : Date) : Date :=
  let month1 := c.month + 1
  let year := c.year + (if 12 < month1 then 1 else 0)
  let month := if month1 ≤ 12 then month1 else 1
  ⟨year, month, min c.day 28⟩

/-- The Year branch of shift_period_left (src/time.py lines 171-172):
cur.replace(year=cur.year - 1), where replace re-runs the constructor
validity check and raises (none) on an invalid day. -/
def shift_period_left_year (c : Date) : Option Date :=
  mkDate (c.year - 1) c.month c.day

/-- The Year branch of shift_period_right (src/time.py lines 188-189). -/
def shift_period_right_year (c : Date) : Option Date :=
  mkDate (c.year + 1) c.month c.day

theorem daysInMonth_bounds (y : ℤ) (m : ℕ) :
    28 ≤ daysInMonth y m ∧ daysInMonth y m ≤ 31 := by
  unfold daysInMonth
  split
  · split <;> omega
  · split <;> omega

theorem daysInMonth_ne_two (y y' : ℤ) (m : ℕ) (hm : m ≠ 2) :
    daysInMonth y m = daysInMonth y' m := by
  unfold daysInMonth
  rw [if_neg hm, if_neg hm]

theorem iterate_succDate_within (y : ℤ) (m : ℕ) :
    ∀ (n d : ℕ), 1 ≤ d → d + n ≤ daysInMonth y m →
      succDate^[n] ⟨y, m, d⟩ = ⟨y, m, d + n⟩ := by
  intro n
  induction n with
  | zero => intro d _ _; simp
  | succ k ih =>
    intro d hd hdn
    rw [Function.iterate_succ_apply]
    have hlt : d < daysInMonth y m := by omega
    rw [show succDate ⟨y, m, d⟩ = ⟨y, m, d + 1⟩ from by simp [succDate, hlt]]
    rw [ih (d + 1) (by omega) (by omega)]
    congr 1
    omega

theorem addDays32_first (y : ℤ) (m : ℕ) (h1 : 1 ≤ m) (h2 : m ≤ 12) :
    succDate^[32] ⟨y, m, 1⟩ =
      if m < 12 then (⟨y, m + 1, 33 - daysInMonth y m⟩ : Date)
      else ⟨y + 1, 1, 33 - daysInMonth y m⟩ := by
  have hb := daysInMonth_bounds y m
  have h32 : (32 : ℕ) = ((32 - daysInMonth y m) + 1) + (daysInMonth y m - 1) := by
    omega
  rw [h32, Function.iterate_add_apply,
      iterate_succDate_within y m (daysInMonth y m - 1) 1 (by omega) (by omega)]
  have hd : 1 + (daysInMonth y m - 1) = daysInMonth y m := by omega
  rw [hd]
  have hstep : succDate ⟨y, m, daysInMonth y m⟩ =
      if m < 12 then (⟨y, m + 1, 1⟩ : Date) else ⟨y + 1, 1, 1⟩ := by
    unfold succDate
    simp
  rw [Function.iterate_add_apply, Function.iterate_one, hstep]
  by_cases hm : m < 12
  · rw [if_pos hm, if_pos hm]
    have hb2 := daysInMonth_bounds y (m + 1)
    rw [iterate_succDate_within y (m + 1) (32 - daysInMonth y m) 1 (by omega)
        (by omega)]
    congr 1
    omega
  · rw [if_neg hm, if_neg hm]
    have hb2 := daysInMonth_bounds (y + 1) 1
    rw [iterate_succDate_within (y + 1) 1 (32 - daysInMonth y m) 1 (by omega)
        (by omega)]
    congr 1
    omega

/-- C5: for every anchor date with a month in 1-12, the Month period window
has start equal to the anchor with day forced to 1 and end equal to the last
calendar day of the anchor month, for every month including February of leap
and non-leap years (daysInMonth is the Gregorian month length). -/
theorem C5_month_window (y : ℤ) (m d : ℕ) (h1 : 1 ≤ m) (h2 : m ≤ 12) :
    get_period_dates_month ⟨y, m, d⟩ =
      (⟨y, m, 1⟩, ⟨y, m, daysInMonth y m⟩) := by
  unfold get_period_dates_month
  rw [addDays32_first y m h1 h2]
  by_cases hm : m < 12
  · rw [if_pos hm]
    simp only [Prod.mk.injEq, true_and]
    unfold predDate
    simp only [lt_irrefl, if_false]
    rw [if_pos (by omega : (1:ℕ) < m + 1)]
    simp only [Nat.add_sub_cancel]
  · have hm12 : m = 12 := by omega
    subst hm12
    rw [if_neg hm]
    simp only [Prod.mk.injEq, true_and]
    have hdim : daysInMonth y 12 = 31 := by unfold daysInMonth; norm_num
    rw [hdim]
    simp only [predDate]
    norm_num

/-- Witness for C5 at February 2024, a leap year: the window runs from the
1st to the 29th. -/
theorem C5_month_window_witness :
    (1 ≤ 2 ∧ 2 ≤ 12) ∧
    get_period_dates_month ⟨2024, 2, 15⟩ =
      (⟨2024, 2, 1⟩, ⟨2024, 2, 29⟩) :=
  ⟨by omega,
   (C5_month_window 2024 2 15 (by omega) (by omega)).trans (by
     have : daysInMonth 2024 2 = 29 := by
       have : isLeap 2024 := by unfold isLeap; omega
       unfold daysInMonth
       rw [if_pos rfl, if_pos this]
     rw [this])⟩

/-- C6: for every anchor with month in 1-12, shifting the Month cursor moves
to the adjacent month keeping the day clamped to at most 28, and the year
rolls over at the month boundaries: left from January gives December of the
previous year, right from December gives January of the next year. -/
theorem C6_month_shift_adjacent (y : ℤ) (m d : ℕ) (h1 : 1 ≤ m) (h2 : m ≤ 12) :
    shift_period_left_month ⟨y, m, d⟩ =
      (if m = 1 then (⟨y - 1, 12, min d 28⟩ : Date) else ⟨y, m - 1, min d 28⟩)
    ∧ shift_period_right_month ⟨y, m, d⟩ =
      (if m = 12 then (⟨y + 1, 1, min d 28⟩ : Date) else ⟨y, m + 1, min d 28⟩) := by
  constructor
  · by_cases hm : m = 1
    · subst hm
      rw [if_pos rfl]
      simp [shift_period_left_month]
    · rw [if_neg hm]
      have hz : ¬ (m - 1 = 0) := by omega
      have h12 : ¬ (m - 1 = 12) := by omega
      simp only [shift_period_left_month, if_neg hz, if_neg h12]
      simp
  · by_cases hm : m = 12
    · subst hm
      rw [if_pos rfl]
      simp [shift_period_right_month]
    · rw [if_neg hm]
      have hgt : ¬ (12 < m + 1) := by omega
      have hle : m + 1 ≤ 12 := by omega
      simp only [shift_period_right_month, if_neg hgt, if_pos hle]
      simp

/-- Witness for C6 at January 31, 2024. -/
theorem C6_month_shift_adjacent_witness :
    ((1:ℕ) ≤ 1 ∧ 1 ≤ 12) ∧
    (shift_period_left_month ⟨2024, 1, 31⟩ =
      (if 1 = 1 then (⟨2023, 12, min 31 28⟩ : Date) else ⟨2024, 0, min 31 28⟩)
    ∧ shift_period_right_month ⟨2024, 1, 31⟩ =
      (if 1 = 12 then (⟨2025, 1, min 31 28⟩ : Date) else ⟨2024, 2, min 31 28⟩)) :=
  ⟨by omega, C6_month_shift_adjacent 2024 1 31 (by omega) (by omega)⟩

/-- C7: for every anchor with month in 1-12, shifting the Month cursor left
and then right lands on the same year and month as the original anchor with
day equal to the original day clamped to at most 28. -/
theorem C7_month_left_right_roundtrip (y : ℤ) (m d : ℕ) (h1 : 1 ≤ m)
    (h2 : m ≤ 12) :
    shift_period_right_month (shift_period_left_month ⟨y, m, d⟩) =
      ⟨y, m, min d 28⟩ := by
  by_cases hm : m = 1
  · subst hm
    simp [shift_period_left_month, shift_period_right_month, min_assoc]
  · have hz : ¬ (m - 1 = 0) := by omega
    have h12 : ¬ (m - 1 = 12) := by omega
    have hgt : ¬ (12 < (m - 1) + 1) := by omega
    have hle : (m - 1) + 1 ≤ 12 := by omega
    simp only [shift_period_left_month, if_neg hz, if_neg h12,
      shift_period_right_month]
    simp only [Date.mk.injEq]
    refine ⟨by omega, ?_, by omega⟩
    rw [if_pos (by omega : m - 1 + 1 ≤ 12)]
    omega

/-- Witness for C7 at March 31, 2024: left then right returns March 28. -/
theorem C7_month_left_right_roundtrip_witness :
    ((1:ℕ) ≤ 3 ∧ 3 ≤ 12) ∧
    shift_period_right_month (shift_period_left_month ⟨2024, 3, 31⟩) =
      ⟨2024, 3, min 31 28⟩ :=
  ⟨by omega, C7_month_left_right_roundtrip 2024 3 31 (by omega) (by omega)⟩

theorem not_isLeap_adjacent {y : ℤ} (hL : isLeap y) :
    ¬ isLeap (y - 1) ∧ ¬ isLeap (y + 1) := by
  unfold isLeap at *
  omega

/-- C9: for every valid anchor date, if the anchor is February 29 (which
forces a leap year) then the Year shift in either direction hits the
datetime.date constructor with day 29 in a non-leap year and raises
(modelled as none); for every other anchor it returns the same month and day
with the year decremented or incremented. -/
theorem C9_year_shift_feb29 (y : ℤ) (m d : ℕ) (hv : validDate y m d) :
    ((m = 2 ∧ d = 29) →
        shift_period_left_year ⟨y, m, d⟩ = none ∧
        shift_period_right_year ⟨y, m, d⟩ = none)
    ∧ (¬ (m = 2 ∧ d = 29) →
        shift_period_left_year ⟨y, m, d⟩ = some ⟨y - 1, m, d⟩ ∧
        shift_period_right_year ⟨y, m, d⟩ = some ⟨y + 1, m, d⟩) := by
  obtain ⟨hm1, hm2, hd1, hd2⟩ := hv
  constructor
  · rintro ⟨hm, hd⟩
    subst hm
    subst hd
    have hL : isLeap y := by
      by_contra hc
      have : daysInMonth y 2 = 28 := by
        unfold daysInMonth
        rw [if_pos rfl, if_neg hc]
      omega
    obtain ⟨hL1, hL2⟩ := not_isLeap_adjacent hL
    have e1 : daysInMonth (y - 1) 2 = 28 := by
      unfold daysInMonth
      rw [if_pos rfl, if_neg hL1]
    have e2 : daysInMonth (y + 1) 2 = 28 := by
      unfold daysInMonth
      rw [if_pos rfl, if_neg hL2]
    constructor
    · unfold shift_period_left_year mkDate
      dsimp only
      rw [if_neg]
      intro hvv
      rw [validDate, e1] at hvv
      omega
    · unfold shift_period_right_year mkDate
      dsimp only
      rw [if_neg]
      intro hvv
      rw [validDate, e2] at hvv
      omega
  · intro hne
    have hdle : ∀ y' : ℤ, d ≤ daysInMonth y' m := by
      intro y'
      by_cases hm : m = 2
      · subst hm
        have h28 := (daysInMonth_bounds y' 2).1
        have hdne : d ≠ 29 := fun hc => hne ⟨rfl, hc⟩
        have h29 : daysInMonth y 2 ≤ 29 := by
          unfold daysInMonth
          rw [if_pos rfl]
          split <;> omega
        omega
      · rw [daysInMonth_ne_two y' y m hm]
        exact hd2
    constructor
    · unfold shift_period_left_year mkDate
      rw [if_pos ⟨hm1, hm2, hd1, hdle (y - 1)⟩]
    · unfold shift_period_right_year mkDate
      rw [if_pos ⟨hm1, hm2, hd1, hdle (y + 1)⟩]

/-- Witness for C9 at February 29, 2024: both Year shifts raise. -/
theorem C9_year_shift_feb29_witness :
    validDate 2024 2 29 ∧
    (shift_period_left_year ⟨2024, 2, 29⟩ = none ∧
     shift_period_right_year ⟨2024, 2, 29⟩ = none) :=
  ⟨by unfold validDate daysInMonth isLeap; norm_num,
   (C9_year_shift_feb29 2024 2 29
      (by unfold validDate daysInMonth isLeap; norm_num)).1 ⟨rfl, rfl⟩⟩

/-- Sum of the duration_hours column over a list of segments. -/
def sumHours (l : List DaySegment) : ℚ := (l.map DaySegment.duration_hours).sum

/-- Distinct elements in first-occurrence order: the model of the pandas
unique accessor. -/
def uniqueKeep {α : Type} [DecidableEq α] (l : List α) : List α :=
  l.foldl (fun acc a => if a ∈ acc then acc else acc ++ [a]) []

/-- Stable insertion for descending order by the second component: an
element is placed after every earlier element whose key is at least its
own, which matches the stable Python list sort with reverse=True. -/
def insertDesc (a : String × ℚ) : List (String × ℚ) → List (String × ℚ)
  | [] => [a]
  | b :: rest => if a.2 ≤ b.2 then b :: insertDesc a rest else a :: b :: rest

/-- Stable descending sort by the second component. -/
def sortDesc (l : List (String × ℚ)) : List (String × ℚ) :=
  l.foldr insertDesc []

/-- One indented activity sub-line of show_copyable_text (src/time.py lines
453-467): percentage of the whole slice, formatted duration, activity name,
and up to three distinct non-empty stripped notes with a more-suffix. -/
def actLine (total_hours : ℚ) (cat_df : List DaySegment) (act : String)
    (act_hours : ℚ) : String :=
  let act_percentage : ℤ :=
    if 0 < total_hours then pyRound (act_hours / total_hours * 100) else 0
  let notes := uniqueKeep
    (((cat_df.filter (fun r => r.activityName = act)).map
        (fun r => r.note.trim)).filter (fun s => ¬ (s = "")))
  if 0 < notes.length then
    let notes_str := String.intercalate ", " (notes.take 3) ++
      (if 3 < notes.length then
        " (+" ++ toString (notes.length - 3) ++ " more)" else "")
    "   └─ " ++ fmt02 act_percentage ++ "% " ++ hours_to_hhmm act_hours ++
      "h " ++ act ++ " (" ++ notes_str ++ ")"
  else
    "   └─ " ++ fmt02 act_percentage ++ "% " ++ hours_to_hhmm act_hours ++
      "h " ++ act

/-- The lines contributed by one category in show_copyable_text (src/time.py
lines 435-470): the category header line followed by its sub-lines, either
one per distinct activity sorted by descending total, or one bare duration
line per raw segment when no activity column is present. -/
def catLines (total_hours : ℚ) (has_activity : Bool) (df : List DaySegment)
    (cat : String) : List String :=
  let cat_df := df.filter (fun r => r.activityCategoryName = cat)
  if cat_df = [] then []
  else
    let total_cat_hours := sumHours cat_df
    let cat_percentage : ℤ :=
      if 0 < total_hours then pyRound (total_cat_hours / total_hours * 100)
      else 0
    (fmt02 cat_percentage ++ "% " ++ hours_to_hhmm total_cat_hours ++ "h " ++ cat)
      :: (if has_activity then
            (sortDesc ((uniqueKeep (cat_df.map DaySegment.activityName)).map
              (fun a => (a, sumHours (cat_df.filter
                (fun r => r.activityName = a)))))).map
              (fun p => actLine total_hours cat_df p.1 p.2)
          else
            cat_df.map (fun r => "   └─ " ++ hours_to_hhmm r.duration_hours ++ " h"))

/-- The list of lines built by show_copyable_text (src/time.py lines
423-471) over a window slice: categories are visited in catalog order,
restricted to those present in the slice; the joined text block is the
newline join of these lines.  has_activity models the presence of the
activityName column. -/
def show_copyable_text_lines (catalog : List String) (has_activity : Bool)
    (df : List DaySegment) : List String :=
  let total_hours := sumHours df
  let ordered_cats := catalog.filter
    (fun c => c ∈ df.map DaySegment.activityCategoryName)
  ordered_cats.flatMap (catLines total_hours has_activity df)

/-- C8: for a window slice of total 10 hours with category A at 6 hours and
category B at 4 hours, A ranked above B in the catalog, the formatter emits
the category line 60% 06:00h A and then the category line 40% 04:00h B, in
that order (here with the per-segment sub-line variant, each category line
followed by its single bare duration sub-line). -/
theorem C8_summary_scenario :
    show_copyable_text_lines ["A", "B"] false
      [⟨0, 0, "A", "actA", "", 6⟩, ⟨0, 0, "B", "actB", "", 4⟩] =
      ["60% 06:00h A", "   └─ 06:00 h", "40% 04:00h B", "   └─ 04:00 h"] := by
  simp [show_copyable_text_lines, catLines, sumHours, List.filter_cons]
  norm_num [pyRound, pyInt, fmt02, hours_to_hhmm]
  refine ⟨?_, ?_, ?_, ?_⟩ <;> rfl

end TimeApp
